import Mathlib

/-
Verification of the election-source pipeline: a shallow embedding of the
response parser (`parseAIGeneratedJson`), the position validator
(`validateRawPositions`), the candidate research sequencer
(`getDetailedCandidatesInfoWithLogging`), the per-seed orchestrator
(`getDetailedElectionInfoWithRawResponses`), the data transformer
(`transformElectionData` internals), and the utility functions
(`retryWithBackoff`, `chunkArray`).

JavaScript runtime behaviour is modelled explicitly:
 - `JSON.parse` is modelled by `Json.parse`, a strict fuel-based
   recursive-descent parser over a `Json` inductive.  Number literals are
   modelled as integers (no fraction/exponent forms); none of the verified
   properties depend on non-integer numbers.
 - the regex match `jsonResponse.match(/\x7b[\s\S]*\x7d/)` is modelled by
   `extractJsonSpan` (first opening brace through the last closing brace
   after it).
 - a thrown `TypeError` (property access on `null`) is modelled with
   `Except Unit`; the surrounding `try/catch` blocks turn it into the
   documented fallback result.
 - `new Date(x)` string parsing is environment-defined in JavaScript, so it
   is passed in as a parameter `jsNewDate : Option Json → Option Int`
   (`none` = Invalid Date); dates themselves are millisecond timestamps.
-/

/-- The JSON value universe produced by `JSON.parse`.  Numbers are modelled
as integers; see the header comment. -/
inductive Json where
  | null : Json
  | bool : Bool → Json
  | num : Int → Json
  | str : String → Json
  | arr : List Json → Json
  | obj : List (String × Json) → Json
deriving Inhabited

/-- JSON whitespace accepted by `JSON.parse`. -/
def isJsonWs (c : Char) : Bool :=
  c = ' ' || c = '\t' || c = '\n' || c = '\r'

/-- Skip leading JSON whitespace. -/
def skipWs (cs : List Char) : List Char :=
  cs.dropWhile isJsonWs

/-- Value of a hexadecimal digit. -/
def hexVal (c : Char) : Option Nat :=
  if '0' ≤ c ∧ c ≤ '9' then some (c.toNat - '0'.toNat)
  else if 'a' ≤ c ∧ c ≤ 'f' then some (c.toNat - 'a'.toNat + 10)
  else if 'A' ≤ c ∧ c ≤ 'F' then some (c.toNat - 'A'.toNat + 10)
  else none

/-- Single-character escapes of JSON strings. -/
def escChar (c : Char) : Option Char :=
  if c = '"' then some '"'
  else if c = '\\' then some '\\'
  else if c = '/' then some '/'
  else if c = 'b' then some (Char.ofNat 8)
  else if c = 'f' then some (Char.ofNat 12)
  else if c = 'n' then some '\n'
  else if c = 'r' then some '\r'
  else if c = 't' then some '\t'
  else none

/-- Parse the remainder of a JSON string literal (the opening quote has been
consumed); returns the decoded characters and the unconsumed input. -/
def parseStringRest : List Char → Option (List Char × List Char)
  | [] => none
  | c :: cs =>
    if c = '"' then some ([], cs)
    else if c = '\\' then
      match cs with
      | [] => none
      | e :: cs2 =>
        if e = 'u' then
          match cs2 with
          | h1 :: h2 :: h3 :: h4 :: cs3 =>
            match hexVal h1, hexVal h2, hexVal h3, hexVal h4 with
            | some n1, some n2, some n3, some n4 =>
              match parseStringRest cs3 with
              | some (s, r) =>
                some (Char.ofNat (((n1 * 16 + n2) * 16 + n3) * 16 + n4) :: s, r)
              | none => none
            | _, _, _, _ => none
          | _ => none
        else
          match escChar e with
          | some ec =>
            match parseStringRest cs2 with
            | some (s, r) => some (ec :: s, r)
            | none => none
          | none => none
    else
      match parseStringRest cs with
      | some (s, r) => some (c :: s, r)
      | none => none

/-- Numeric value of a list of decimal digits. -/
def digitsToNat (ds : List Char) : Nat :=
  ds.foldl (fun acc c => acc * 10 + (c.toNat - '0'.toNat)) 0

/-- Parse a JSON number literal (integer forms only; see header comment). -/
def parseNumber (cs : List Char) : Option (Json × List Char) :=
  let signed := match cs with
    | c :: rest => if c = '-' then (true, rest) else (false, cs)
    | [] => (false, cs)
  let ds := signed.2.takeWhile Char.isDigit
  let rest := signed.2.dropWhile Char.isDigit
  if ds = [] then none
  else if 1 < ds.length ∧ ds.head? = some '0' then none
  else
    let n : Int := Int.ofNat (digitsToNat ds)
    some (Json.num (if signed.1 then -n else n), rest)

/-- Accept a fixed literal continuation (for `true`, `false`, `null`). -/
def expectLit (lit : List Char) (cs : List Char) (v : Json) :
    Option (Json × List Char) :=
  if lit.isPrefixOf cs then some (v, cs.drop lit.length) else none

mutual

/-- Parse one JSON value (leading whitespace already skipped). -/
def parseVal : Nat → List Char → Option (Json × List Char)
  | 0, _ => none
  | fuel + 1, cs =>
    match cs with
    | [] => none
    | c :: rest =>
      if c = '{' then parseObjRest fuel (skipWs rest)
      else if c = '[' then parseArrRest fuel (skipWs rest)
      else if c = '"' then
        match parseStringRest rest with
        | some (content, r) => some (Json.str (String.mk content), r)
        | none => none
      else if c = 't' then expectLit ['r', 'u', 'e'] rest (Json.bool true)
      else if c = 'f' then expectLit ['a', 'l', 's', 'e'] rest (Json.bool false)
      else if c = 'n' then expectLit ['u', 'l', 'l'] rest Json.null
      else parseNumber (c :: rest)

/-- Parse the inside of an object after the opening brace (whitespace
already skipped). -/
def parseObjRest : Nat → List Char → Option (Json × List Char)
  | 0, _ => none
  | fuel + 1, cs =>
    match cs with
    | [] => none
    | c :: rest =>
      if c = '}' then some (Json.obj [], rest)
      else
        match parseMembers fuel cs with
        | some (fields, r) => some (Json.obj fields, r)
        | none => none

/-- Parse one or more `"key": value` members, consuming the closing brace. -/
def parseMembers : Nat → List Char → Option (List (String × Json) × List Char)
  | 0, _ => none
  | fuel + 1, cs =>
    match cs with
    | [] => none
    | c :: rest =>
      if c = '"' then
        match parseStringRest rest with
        | some (key, r1) =>
          match skipWs r1 with
          | [] => none
          | c2 :: r2 =>
            if c2 = ':' then
              match parseVal fuel (skipWs r2) with
              | some (v, r3) =>
                match skipWs r3 with
                | [] => none
                | c3 :: r4 =>
                  if c3 = ',' then
                    match parseMembers fuel (skipWs r4) with
                    | some (fields, r5) =>
                      some ((String.mk key, v) :: fields, r5)
                    | none => none
                  else if c3 = '}' then some ([(String.mk key, v)], r4)
                  else none
              | none => none
            else none
        | none => none
      else none

/-- Parse the inside of an array after the opening bracket (whitespace
already skipped). -/
def parseArrRest : Nat → List Char → Option (Json × List Char)
  | 0, _ => none
  | fuel + 1, cs =>
    match cs with
    | [] => none
    | c :: _ =>
      if c = ']' then some (Json.arr [], cs.tail)
      else
        match parseElems fuel cs with
        | some (vs, r) => some (Json.arr vs, r)
        | none => none

/-- Parse one or more array elements, consuming the closing bracket. -/
def parseElems : Nat → List Char → Option (List Json × List Char)
  | 0, _ => none
  | fuel + 1, cs =>
    match parseVal fuel cs with
    | some (v, r1) =>
      match skipWs r1 with
      | [] => none
      | c2 :: r2 =>
        if c2 = ',' then
          match parseElems fuel (skipWs r2) with
          | some (vs, r3) => some (v :: vs, r3)
          | none => none
        else if c2 = ']' then some ([v], r2)
        else none
    | none => none

end

/-- Model of `JSON.parse`: strict parse of the whole string (only trailing
whitespace allowed). -/
def Json.parse (s : String) : Option Json :=
  match parseVal (3 * s.length + 3) (skipWs s.data) with
  | some (v, rest) => if skipWs rest = [] then some v else none
  | none => none

/-- The suffix of `cs` starting at its first opening brace (`[]` if none). -/
def spanFromFirstBrace (cs : List Char) : List Char :=
  cs.dropWhile (fun c => ¬ (c = '{'))

/-- The prefix of `cs` up to and including its last closing brace, or `none`
if `cs` has no closing brace. -/
def truncAtLastClose (cs : List Char) : Option (List Char) :=
  match cs.reverse.dropWhile (fun c => ¬ (c = '}')) with
  | [] => none
  | l => some l.reverse

/-- Model of `jsonResponse.match(/\x7b[\s\S]*\x7d/)`: the (greedy) span from
the first opening brace through the last closing brace after it, or `none`
when no such span exists. -/
def extractJsonSpan (s : String) : Option String :=
  match spanFromFirstBrace s.data with
  | [] => none
  | c :: tail =>
    match truncAtLastClose tail with
    | none => none
    | some body => some (String.mk (c :: body))

/-- Whether a JSON value is `null` (property access on it throws). -/
def Json.isNull : Json → Bool
  | .null => true
  | _ => false

/-- JavaScript property access `j.key` yielding `none` for `undefined`
(missing key, or access on a primitive).  With duplicate keys the last
binding wins, as in a JavaScript object literal.  Access on `null` throws
in JavaScript; that case is handled by `jsGet` below. -/
def Json.getF : Json → String → Option Json
  | .obj fields, key =>
    fields.foldl (fun acc p => if p.1 = key then some p.2 else acc) none
  | _, _ => none

/-- Effectful map over a list, short-circuiting at the first thrown
`TypeError`, as `Array.prototype.map` does when the callback throws. -/
def exceptMap {β γ : Type} (f : β → Except Unit γ) :
    List β → Except Unit (List γ)
  | [] => Except.ok []
  | b :: rest =>
    match f b with
    | Except.error e => Except.error e
    | Except.ok g =>
      match exceptMap f rest with
      | Except.error e => Except.error e
      | Except.ok gs => Except.ok (g :: gs)

/-- JavaScript truthiness of a parsed JSON value. -/
def jsTruthy : Json → Bool
  | .null => false
  | .bool b => b
  | .num n => decide (n ≠ 0)
  | .str s => decide (s ≠ "")
  | .arr _ => true
  | .obj _ => true

/-- Truthiness where `none` models `undefined` (falsy). -/
def jsTruthyOpt : Option Json → Bool
  | none => false
  | some j => jsTruthy j

mutual

/-- JavaScript `String(x)` on a parsed JSON value. -/
def jsToString : Json → String
  | .null => "null"
  | .bool b => if b then "true" else "false"
  | .num n => toString n
  | .str s => s
  | .arr items => String.intercalate "," (jsArrElems items)
  | .obj _ => "[object Object]"

/-- Element rendering inside `Array.prototype.toString` (null renders as the
empty string). -/
def jsArrElems : List Json → List String
  | [] => []
  | .null :: rest => "" :: jsArrElems rest
  | j :: rest => jsToString j :: jsArrElems rest

end

/-- `String(x)` where `none` models `undefined`. -/
def jsToStringU : Option Json → String
  | none => "undefined"
  | some j => jsToString j

/-- JavaScript `toUpperCase` restricted to ASCII (character-level map). -/
def jsToUpper (s : String) : String :=
  String.mk (s.data.map Char.toUpper)

/-- `x || dflt` for a string-destined field: the stringified value when
truthy, otherwise the default. -/
def jsOrString : Option Json → String → String
  | some j, dflt => if jsTruthy j then jsToString j else dflt
  | none, dflt => dflt

/-- Whitespace trimmed by `parseInt`. -/
def isJsWs (c : Char) : Bool :=
  c = ' ' || c = '\t' || c = '\n' || c = '\r' || c = Char.ofNat 11 || c = Char.ofNat 12

/-- Longest decimal-digit prefix, `none` when empty. -/
def digitsVal (cs : List Char) : Option Nat :=
  let ds := cs.takeWhile Char.isDigit
  if ds.isEmpty then none else some (digitsToNat ds)

/-- JavaScript `parseInt(s, 10)`: trim leading whitespace, optional sign,
then the longest digit prefix; `none` models `NaN`. -/
def jsParseInt10 (s : String) : Option Int :=
  let cs := s.data.dropWhile isJsWs
  match cs with
  | '-' :: rest => (digitsVal rest).map (fun n => -(n : Int))
  | '+' :: rest => (digitsVal rest).map (fun n => (n : Int))
  | _ => (digitsVal cs).map (fun n => (n : Int))

/-- Seat-count coercion in `validateRawPositions`:
`const positions = parseInt(position.positions, 10);` followed by
`isNaN(positions) ? 1 : positions`. -/
def coerceSeatCount (v : Option Json) : Int :=
  match jsParseInt10 (jsToStringU v) with
  | some n => n
  | none => 1

/-- The closed election-type enumeration (string enum in the source). -/
inductive ElectionType where
  | LOCAL : ElectionType
  | STATE : ElectionType
  | NATIONAL : ElectionType
  | UNIVERSITY : ElectionType
deriving DecidableEq, Inhabited

/-- The string value of each enum member. -/
def ElectionType.toStr : ElectionType → String
  | .LOCAL => "LOCAL"
  | .STATE => "STATE"
  | .NATIONAL => "NATIONAL"
  | .UNIVERSITY => "UNIVERSITY"

/-- Seed election record (`BasicElection` in models/types.ts); `date` is a
millisecond timestamp. -/
structure BasicElection where
  name : String
  state : String
  district : String
  description : String
  date : Int
deriving DecidableEq, Inhabited

/-- Validated position record (`DetailedPosition` in models/types.ts). -/
structure DetailedPosition where
  positionName : String
  electionDate : Int
  city : String
  state : String
  description : String
  type : ElectionType
  positions : Int
deriving DecidableEq, Inhabited

/-- A candidate policy (title/description pair). -/
structure CandidatePolicy where
  title : String
  description : String
deriving DecidableEq, Inhabited

/-- Candidate record; the three URL fields are optional in the interface
(`Option`), everything else is a plain string. -/
structure Candidate where
  fullName : String
  currentPosition : String
  imageUrl : Option String
  linkedinUrl : Option String
  campaignUrl : Option String
  description : String
  keyPolicies : List CandidatePolicy
  additionalNotes : String
  sources : List String
  party : String
  city : String
  state : String
  twitter : String
deriving DecidableEq, Inhabited

/-- Final output record (`DetailedElection` in models/types.ts). -/
structure DetailedElection where
  position : String
  date : Int
  city : String
  state : String
  description : String
  type : ElectionType
  candidates : List Candidate
deriving DecidableEq, Inhabited

/-- Exact match of a string against the enum's string values. -/
def electionTypeOfUpper (u : String) : Option ElectionType :=
  if u = "LOCAL" then some ElectionType.LOCAL
  else if u = "STATE" then some ElectionType.STATE
  else if u = "NATIONAL" then some ElectionType.NATIONAL
  else if u = "UNIVERSITY" then some ElectionType.UNIVERSITY
  else none

/-- The else-branch of the type coercion in `parseAIGeneratedJson`:
`String(election.type || '').toUpperCase()` matched against the four
names, defaulting to LOCAL. -/
def parseJsonElectionTypeFallback (v : Option Json) : ElectionType :=
  let raw : String :=
    match v with
    | some j => if jsTruthy j then jsToString j else ""
    | none => ""
  match electionTypeOfUpper (jsToUpper raw) with
  | some t => t
  | none => ElectionType.LOCAL

/-- Type coercion in `parseAIGeneratedJson`:
`election.type && Object.values(ElectionType).includes(election.type)`
keeps an exact enum string; otherwise the uppercased fallback applies. -/
def parseJsonElectionType (v : Option Json) : ElectionType :=
  match v with
  | some (Json.str s) =>
    match electionTypeOfUpper s with
    | some t => t
    | none => parseJsonElectionTypeFallback v
  | _ => parseJsonElectionTypeFallback v

/-- Per-policy coercion in `parseAIGeneratedJson` (the `policy.title`
access throws only when the policy element is `null`). -/
def mapPolicy (policy : Json) : Except Unit CandidatePolicy :=
  if policy.isNull then Except.error ()
  else
    Except.ok
      { title := jsOrString (policy.getF "title") "Policy",
        description := jsOrString (policy.getF "description")
          "No description provided" }

/-- Per-candidate coercion in `parseAIGeneratedJson`.  After the first
field access succeeds the receiver is known non-null, so the remaining
accesses use `Json.getF` directly.  Elements of `sources` pass through
unchanged in JavaScript; they are rendered with `String(·)` here to fit the
typed `List String` field. -/
def mapCandidate (candidate : Json) : Except Unit Candidate :=
  if candidate.isNull then Except.error ()
  else
  match
    (match candidate.getF "keyPolicies" with
     | some (Json.arr l) => exceptMap mapPolicy l
     | _ => Except.ok [{ title := "Policy",
                         description := "No specific policies mentioned" }] :
      Except Unit (List CandidatePolicy)) with
  | Except.error e => Except.error e
  | Except.ok keyPolicies =>
  let sources :=
    match candidate.getF "sources" with
    | some (Json.arr l) => l.map jsToString
    | _ => ["No sources found"]
  Except.ok {
    fullName := jsOrString (candidate.getF "fullName") "",
    currentPosition := jsOrString (candidate.getF "currentPosition") "Candidate",
    imageUrl := some (jsOrString (candidate.getF "imageUrl") ""),
    linkedinUrl := some (jsOrString (candidate.getF "linkedinUrl") ""),
    campaignUrl := some (jsOrString (candidate.getF "campaignUrl") ""),
    description := jsOrString (candidate.getF "description") "No description found",
    keyPolicies := keyPolicies,
    additionalNotes := jsOrString (candidate.getF "additionalNotes") "",
    sources := sources,
    party := jsOrString (candidate.getF "party") "No party found",
    city := jsOrString (candidate.getF "city") "Unknown",
    state := jsOrString (candidate.getF "state") "Unknown",
    twitter := jsOrString (candidate.getF "twitter") "" }

/-- Per-election coercion in `parseAIGeneratedJson`. -/
def mapElection (jsNewDate : Option Json → Option Int)
    (basicElection : BasicElection) (election : Json) :
    Except Unit DetailedElection :=
  if election.isNull then Except.error ()
  else
  match
    (match election.getF "candidates" with
     | some (Json.arr l) => exceptMap mapCandidate l
     | _ => Except.ok [] : Except Unit (List Candidate)) with
  | Except.error e => Except.error e
  | Except.ok candidates =>
  Except.ok {
    position := jsOrString (election.getF "position") basicElection.name,
    date :=
      match jsNewDate (election.getF "date") with
      | some t => t
      | none => basicElection.date,
    city := jsOrString (election.getF "city") "",
    state := jsOrString (election.getF "state") "",
    description := jsOrString (election.getF "description")
      ("Position for " ++ basicElection.name),
    type := parseJsonElectionType (election.getF "type"),
    candidates := candidates }

/-- The required top-level array field check
(`!parsedData.key || !Array.isArray(parsedData.key)`).  When `parsedData`
is `null` the access throws in JavaScript and the surrounding catch returns
the same empty result, so that path also collapses to `none`. -/
def topArrayField (parsedData : Json) (key : String) : Option (List Json) :=
  match parsedData.getF key with
  | some (Json.arr l) => some l
  | _ => none

/-- The exported `parseAIGeneratedJson` of apis/gemini/index.ts: isolate a
brace-delimited span (falling back to the whole reply), `JSON.parse` it,
require a top-level `elections` array, and coerce each election; every
failure path returns the empty list.  The source's final
`if (detailedElections.length === 0) return []` is the identity here. -/
def parseAIGeneratedJson (jsNewDate : Option Json → Option Int)
    (jsonResponse : String) (basicElection : BasicElection) :
    List DetailedElection :=
  let jsonString := (extractJsonSpan jsonResponse).getD jsonResponse
  match Json.parse jsonString with
  | none => []
  | some parsedData =>
    match topArrayField parsedData "elections" with
    | none => []
    | some elections =>
      match exceptMap (mapElection jsNewDate basicElection) elections with
      | Except.error _ => []
      | Except.ok detailedElections => detailedElections

/-- Type coercion in `validateRawPositions`:
`switch (String(position.position_type || '').toUpperCase())` with
FEDERAL and NATIONAL both mapping to NATIONAL, default LOCAL. -/
def positionTypeOfString (typeStr : String) : ElectionType :=
  let u := jsToUpper typeStr
  if u = "LOCAL" then ElectionType.LOCAL
  else if u = "STATE" then ElectionType.STATE
  else if u = "FEDERAL" then ElectionType.NATIONAL
  else if u = "NATIONAL" then ElectionType.NATIONAL
  else if u = "UNIVERSITY" then ElectionType.UNIVERSITY
  else ElectionType.LOCAL

/-- The same coercion applied to the raw field value
(`position.position_type || ''`). -/
def positionTypeOfJson (v : Option Json) : ElectionType :=
  positionTypeOfString
    (match v with
     | some j => if jsTruthy j then jsToString j else ""
     | none => "")

/-- The `DetailedPosition` built for an element whose `position_name` is
truthy.  `positionName` is the raw field value (stringified here to fit the
typed field); the election date always comes from the seed election. -/
def keptPosition (basicElection : BasicElection) (position : Json) :
    DetailedPosition :=
  { positionName := jsToStringU (position.getF "position_name"),
    electionDate := basicElection.date,
    city := jsOrString (position.getF "city") "",
    state := jsOrString (position.getF "state") "",
    description := jsOrString (position.getF "description")
      ("Position for " ++ basicElection.name),
    type := positionTypeOfJson (position.getF "position_type"),
    positions := coerceSeatCount (position.getF "positions") }

/-- Per-element mapping in `validateRawPositions`: a `null` element throws
(the first field access), an element with falsy `position_name` maps to
`null` (dropped later), anything else yields a `DetailedPosition`. -/
def mapPosition (basicElection : BasicElection) (position : Json) :
    Except Unit (Option DetailedPosition) :=
  if position.isNull then Except.error ()
  else if jsTruthyOpt (position.getF "position_name") then
    Except.ok (some (keptPosition basicElection position))
  else Except.ok none

/-- `validateRawPositions` of ai-logger-integration.ts: extract a JSON
span (no span → `[]`), parse it (parse failure → `[]`), require the
`positions_up_for_election` array (missing/not an array, or a `null`
parse result whose access throws → `[]`), map the elements (a thrown
`TypeError` is caught → `[]`), and drop the `null`-mapped elements. -/
def validateRawPositions (rawPositions : String)
    (basicElection : BasicElection) : List DetailedPosition :=
  match extractJsonSpan rawPositions with
  | none => []
  | some jsonString =>
    match Json.parse jsonString with
    | none => []
    | some parsedData =>
      match topArrayField parsedData "positions_up_for_election" with
      | none => []
      | some arrPositions =>
        match exceptMap (mapPosition basicElection) arrPositions with
        | Except.error _ => []
        | Except.ok opts => opts.filterMap id

/-- `transformElectionType` of data-transformer/index.ts.  The source takes
`ElectionType | string`; the union is a sum here.  A string is matched
case-insensitively against the four enum names and defaults to LOCAL; an
enum value passes through unchanged. -/
def transformElectionType : ElectionType ⊕ String → ElectionType
  | Sum.inl t => t
  | Sum.inr s =>
    match electionTypeOfUpper (jsToUpper s) with
    | some t => t
    | none => ElectionType.LOCAL

/-- `transformPolicy` of data-transformer/index.ts restricted to the typed
branch (`CandidatePolicy` input; the `string` branch of the source union
cannot occur for a typed candidate). -/
def transformPolicy (policy : CandidatePolicy) : CandidatePolicy := policy

/-- `formatUrl`: empty url → `undefined`; prepend `https://` when no
protocol; validity of `new URL(url)` is environment code and is passed in
as the predicate `urlValid`. -/
def formatUrl (urlValid : String → Bool) (url : String) : Option String :=
  if url = "" then none
  else
    let u := if url.startsWith "http://" || url.startsWith "https://"
             then url else "https://" ++ url
    if urlValid u then some u else none

/-- `candidate.url ? formatUrl(candidate.url) : undefined`. -/
def transformUrlField (urlValid : String → Bool) (v : Option String) :
    Option String :=
  match v with
  | some u => if u = "" then none else formatUrl urlValid u
  | none => none

/-- The per-candidate body of `transformSingleElection`.  For a typed
candidate `Array.isArray(candidate.keyPolicies)` is always true, so the
policy list is mapped (never replaced). -/
def transformCandidate (urlValid : String → Bool) (candidate : Candidate) :
    Candidate :=
  { candidate with
    imageUrl := transformUrlField urlValid candidate.imageUrl,
    linkedinUrl := transformUrlField urlValid candidate.linkedinUrl,
    campaignUrl := transformUrlField urlValid candidate.campaignUrl,
    keyPolicies := candidate.keyPolicies.map transformPolicy }

/-- `transformSingleElection` of data-transformer/index.ts. -/
def transformSingleElection (urlValid : String → Bool)
    (election : DetailedElection) : DetailedElection :=
  { election with
    type := transformElectionType (Sum.inl election.type),
    candidates := election.candidates.map (transformCandidate urlValid) }

/-- Outcome of one Gemini API call: the reply text, or the error message of
a thrown failure. -/
inductive CallResult where
  | ok : String → CallResult
  | err : String → CallResult
deriving DecidableEq, Inhabited

/-- The synthetic placeholder text pushed when a candidate request fails. -/
def candidateErrorPlaceholder (positionName msg : String) : String :=
  "Error retrieving candidate information for " ++ positionName ++ ": " ++ msg

/-- The sequential per-position loop of
`getDetailedCandidatesInfoWithLogging`.  `callGemini k` is the outcome of
the k-th candidate request.  Returns the results accumulator and, second,
the positions a request was issued for, in order. -/
def candidatesLoop (callGemini : Nat → CallResult) :
    List DetailedPosition →
    List (DetailedPosition × String) × List DetailedPosition
  | [] => ([], [])
  | position :: rest =>
    let response :=
      match callGemini 0 with
      | CallResult.ok r => r
      | CallResult.err msg =>
        candidateErrorPlaceholder position.positionName msg
    let tailRes := candidatesLoop (fun n => callGemini (n + 1)) rest
    ((position, response) :: tailRes.1, position :: tailRes.2)

/-- `getDetailedCandidatesInfoWithLogging` of ai-logger-integration.ts:
early return for an empty position list (no requests), otherwise the
sequential loop.  The inter-call delays are pure waiting and carry no
data. -/
def getDetailedCandidatesInfoWithLogging (callGemini : Nat → CallResult)
    (detailedPositions : List DetailedPosition) :
    List (DetailedPosition × String) × List DetailedPosition :=
  if detailedPositions.length = 0 then ([], [])
  else candidatesLoop callGemini detailedPositions

/-- The outcomes of the three kinds of Gemini calls one seed election
makes: the research call, the per-position candidate calls, and the final
transformation call. -/
structure GeminiCalls where
  research : CallResult
  candidate : Nat → CallResult
  transform : CallResult

/-- `getDetailedElectionInfoWithRawResponses` of ai-logger-integration.ts:
research → validate positions → candidate loop → transformation call →
`parseAIGeneratedJson`.  A thrown research or transformation failure
propagates (`Except.error`); the transformation prompt is string templating
over the accumulated candidate responses and carries no data into the
result. -/
def getDetailedElectionInfoWithRawResponses
    (jsNewDate : Option Json → Option Int) (calls : GeminiCalls)
    (basicElection : BasicElection) :
    Except String (String × List DetailedElection) :=
  match calls.research with
  | CallResult.err e => Except.error e
  | CallResult.ok rawPositions =>
    let detailedPositions := validateRawPositions rawPositions basicElection
    let _detailedCandidates :=
      (getDetailedCandidatesInfoWithLogging calls.candidate detailedPositions).1
    match calls.transform with
    | CallResult.err e => Except.error e
    | CallResult.ok structuredJson =>
      Except.ok (structuredJson,
        parseAIGeneratedJson jsNewDate structuredJson basicElection)

/-- The candidate requests the orchestrator issues for one seed. -/
def orchestratorCandidateTrace (calls : GeminiCalls)
    (basicElection : BasicElection) : List DetailedPosition :=
  match calls.research with
  | CallResult.err _ => []
  | CallResult.ok rawPositions =>
    (getDetailedCandidatesInfoWithLogging calls.candidate
      (validateRawPositions rawPositions basicElection)).2

/-- Observable trace of one `retryWithBackoff` run: the final outcome, how
many times `fn` was invoked, and the delays slept between attempts. -/
structure RetryTrace (ε : Type) (α : Type) where
  result : Except ε α
  calls : Nat
  sleeps : List Nat

/-- The `while (true)` loop of `retryWithBackoff`: `fn attempt` is the
outcome of invocation number `attempt` (0-based); on failure the attempt
counter is incremented, the budget checked, and the delay doubled.  The
source's exit test after a failure at attempt index `i` is
`i + 1 >= maxRetries`; it is encoded structurally by the fuel
`fuel = maxRetries - attempt - 1` (natural subtraction), which is `0`
exactly when the test holds. -/
def retryLoop {ε α : Type} (fn : Nat → Except ε α) :
    Nat → Nat → Nat → RetryTrace ε α
  | fuel, attempt, delay =>
    match fn attempt with
    | Except.ok a => { result := Except.ok a, calls := 1, sleeps := [] }
    | Except.error e =>
      match fuel with
      | 0 => { result := Except.error e, calls := 1, sleeps := [] }
      | fuel' + 1 =>
        let rest := retryLoop fn fuel' (attempt + 1) (delay * 2)
        { result := rest.result, calls := rest.calls + 1,
          sleeps := delay :: rest.sleeps }

/-- `retryWithBackoff` of utils/helpers.ts (attempt counter starts at 0,
first delay is `initialDelay`). -/
def retryWithBackoff {ε α : Type} (fn : Nat → Except ε α)
    (maxRetries : Nat) (initialDelay : Nat) : RetryTrace ε α :=
  retryLoop fn (maxRetries - 1) 0 initialDelay

/-- `chunkArray` of utils/helpers.ts: `slice(i, i + size)` for
`i = 0, size, 2·size, …`.  At `size = 0` the JavaScript loop never
terminates; the claims assume `0 < size`, and that case is mapped to `[]`
here. -/
def chunkArray {α : Type} (array : List α) (size : Nat) : List (List α) :=
  match array with
  | [] => []
  | x :: tail =>
    if size = 0 then []
    else (x :: tail).take size :: chunkArray ((x :: tail).drop size) size
termination_by array.length
decreasing_by simp only [List.length_drop, List.length_cons]; omega

/-- A concrete seed election used by the concrete instances below. -/
def seedElection : BasicElection :=
  { name := "Town X Election", state := "Pennsylvania",
    district := "District 1", description := "seed description",
    date := 1742860800000 }

/-- A date-parser instance under which every value is an Invalid Date. -/
def noDateParse : Option Json → Option Int := fun _ => none

/-- Research reply whose positions carry seat counts "3", "three", absent. -/
def seatCountReply : String :=
  "\x7b\"positions_up_for_election\":[\x7b\"position_name\":\"A\",\"positions\":\"3\"\x7d,\x7b\"position_name\":\"B\",\"positions\":\"three\"\x7d,\x7b\"position_name\":\"C\"\x7d]\x7d"

/-- Positions array holding one good element followed by a null element. -/
def nullElementReply : String :=
  "\x7b\"positions_up_for_election\":[\x7b\"position_name\":\"Mayor\"\x7d,null]\x7d"

/-- Positions array with good, bad (no position_name), good elements. -/
def goodBadBatchReply : String :=
  "\x7b\"positions_up_for_election\":[\x7b\"position_name\":\"Mayor\"\x7d,\x7b\"city\":\"X\"\x7d,\x7b\"position_name\":\"Clerk\"\x7d]\x7d"

/-- The parsed elements of `goodBadBatchReply`. -/
def goodBadBatchElems : List Json :=
  [Json.obj [("position_name", Json.str "Mayor")],
   Json.obj [("city", Json.str "X")],
   Json.obj [("position_name", Json.str "Clerk")]]

/-- Transformation reply whose single candidate carries empty `keyPolicies`
and `sources` arrays. -/
def emptyArraysReply : String :=
  "\x7b\"elections\":[\x7b\"candidates\":[\x7b\"keyPolicies\":[],\"sources\":[]\x7d]\x7d]\x7d"

/-- Transformation reply whose single candidate is an empty object. -/
def missingFieldsReply : String :=
  "\x7b\"elections\":[\x7b\"candidates\":[\x7b\x7d]\x7d]\x7d"

/-- A research reply that contains no JSON object at all. -/
def proseReply : String :=
  "The research service replied with prose and no JSON object at all."

/-- Transformation reply with one minimal election object. -/
def oneElectionReply : String := "\x7b\"elections\":[\x7b\x7d]\x7d"

/-- Per-seed call outcomes: prose research reply, failing candidate calls,
and a well-formed transformation reply. -/
def noJsonCalls : GeminiCalls :=
  { research := CallResult.ok proseReply,
    candidate := fun _ => CallResult.err "rate limited",
    transform := CallResult.ok oneElectionReply }

/-- The candidate record produced for an empty JSON candidate object. -/
def emptyObjCandidate : Candidate :=
  { fullName := "", currentPosition := "Candidate", imageUrl := some "",
    linkedinUrl := some "", campaignUrl := some "",
    description := "No description found",
    keyPolicies := [{ title := "Policy",
                      description := "No specific policies mentioned" }],
    additionalNotes := "", sources := ["No sources found"],
    party := "No party found", city := "Unknown", state := "Unknown",
    twitter := "" }

/-- Two concrete validated positions for the sequencer instances. -/
def seqPositions : List DetailedPosition :=
  [{ positionName := "Mayor", electionDate := 0, city := "", state := "",
     description := "", type := ElectionType.LOCAL, positions := 1 },
   { positionName := "Clerk", electionDate := 0, city := "", state := "",
     description := "", type := ElectionType.LOCAL, positions := 1 }]

/-- A candidate-call oracle failing on the first request only. -/
def seqOracle : Nat → CallResult :=
  fun n => if n = 0 then CallResult.err "boom" else CallResult.ok "reply"

/-- A retry oracle failing twice, then succeeding. -/
def okAtTwo : Nat → Except String Nat :=
  fun n => if n = 2 then Except.ok 42 else Except.error "transient"

/-- A retry oracle that always fails. -/
def failAlways : Nat → Except String Nat := fun _ => Except.error "boom"

theorem chunkArray_nil {α : Type} (size : Nat) :
    chunkArray ([] : List α) size = [] := by
  rw [chunkArray]

theorem chunkArray_cons {α : Type} (x : α) (tail : List α) (size : Nat)
    (hs : size ≠ 0) :
    chunkArray (x :: tail) size =
      (x :: tail).take size :: chunkArray ((x :: tail).drop size) size := by
  rw [chunkArray]
  simp [hs]

theorem chunkArray_flatten {α : Type} (xs : List α) (size : Nat)
    (hs : 0 < size) : (chunkArray xs size).flatten = xs := by
  have H : ∀ n (ys : List α), ys.length = n →
      (chunkArray ys size).flatten = ys := by
    intro n
    induction n using Nat.strong_induction_on with
    | _ n ih =>
      intro ys hn
      cases ys with
      | nil => rw [chunkArray_nil]; rfl
      | cons x tail =>
        have hlt : ((x :: tail).drop size).length < n := by
          subst hn
          simp only [List.length_drop, List.length_cons]
          omega
        rw [chunkArray_cons x tail size (Nat.pos_iff_ne_zero.mp hs)]
        simp only [List.flatten_cons]
        rw [ih _ hlt _ rfl]
        exact List.take_append_drop size (x :: tail)
  exact H xs.length xs rfl

theorem chunkArray_ne_nil_of_mem {α : Type} (size : Nat) (hs : 0 < size) :
    ∀ (xs : List α), ∀ c ∈ chunkArray xs size, c ≠ [] := by
  intro xs
  have H : ∀ n (ys : List α), ys.length = n →
      ∀ c ∈ chunkArray ys size, c ≠ [] := by
    intro n
    induction n using Nat.strong_induction_on with
    | _ n ih =>
      intro ys hn c hc
      cases ys with
      | nil => rw [chunkArray_nil] at hc; cases hc
      | cons x tail =>
        rw [chunkArray_cons x tail size (Nat.pos_iff_ne_zero.mp hs)] at hc
        rcases List.mem_cons.mp hc with h | h
        · subst h
          simp only [List.take_cons, ne_eq]
          intro hfalse
          cases size with
          | zero => exact absurd rfl (Nat.pos_iff_ne_zero.mp hs)
          | succ m => simp [List.take] at hfalse
        · have hlt : ((x :: tail).drop size).length < n := by
            subst hn
            simp only [List.length_drop, List.length_cons]
            omega
          exact ih _ hlt _ rfl c h
  exact H xs.length xs rfl

theorem chunkArray_full_chunks {α : Type} (size : Nat) (hs : 0 < size) :
    ∀ (xs : List α) i c, (chunkArray xs size)[i]? = some c →
      i + 1 < (chunkArray xs size).length → c.length = size := by
  intro xs
  have H : ∀ n (ys : List α), ys.length = n →
      ∀ i c, (chunkArray ys size)[i]? = some c →
        i + 1 < (chunkArray ys size).length → c.length = size := by
    intro n
    induction n using Nat.strong_induction_on with
    | _ n ih =>
      intro ys hn i c hc hlen
      cases ys with
      | nil => rw [chunkArray_nil] at hc; cases hc
      | cons x tail =>
        have hsz := Nat.pos_iff_ne_zero.mp hs
        have hlt : ((x :: tail).drop size).length < n := by
          subst hn
          simp only [List.length_drop, List.length_cons]
          omega
        rw [chunkArray_cons x tail size hsz] at hc hlen
        cases i with
        | zero =>
          simp only [List.getElem?_cons_zero, Option.some.injEq] at hc
          subst hc
          simp only [List.length_cons] at hlen
          have hrest : chunkArray ((x :: tail).drop size) size ≠ [] := by
            intro hempty
            rw [hempty] at hlen
            simp at hlen
          have hdrop : (x :: tail).drop size ≠ [] := by
            intro hdropnil
            rw [hdropnil, chunkArray_nil] at hrest
            exact hrest rfl
          have hlen2 : size < (x :: tail).length := by
            by_contra hge
            exact hdrop (List.drop_eq_nil_of_le (Nat.le_of_not_lt hge))
          simp only [List.length_take]
          omega
        | succ j =>
          simp only [List.getElem?_cons_succ] at hc
          simp only [List.length_cons] at hlen
          exact ih _ hlt _ rfl j c hc (by omega)
  exact H xs.length xs rfl

theorem retryLoop_all_fail {ε α : Type} (fn : Nat → Except ε α) :
    ∀ (fuel attempt delay : Nat),
      (∀ i, attempt ≤ i → i ≤ attempt + fuel → (fn i).isOk = false) →
      retryLoop fn fuel attempt delay =
        { result := fn (attempt + fuel), calls := fuel + 1,
          sleeps := (List.range fuel).map (fun i => delay * 2 ^ i) } := by
  intro fuel
  induction fuel with
  | zero =>
    intro attempt delay h
    have hfail := h attempt (Nat.le_refl _) (by omega)
    rw [retryLoop]
    cases hfn : fn attempt with
    | ok a => rw [hfn] at hfail; simp [Except.isOk, Except.toBool] at hfail
    | error e => simp [hfn]
  | succ fuel ih =>
    intro attempt delay h
    have hfail := h attempt (Nat.le_refl _) (by omega)
    rw [retryLoop]
    cases hfn : fn attempt with
    | ok a => rw [hfn] at hfail; simp [Except.isOk, Except.toBool] at hfail
    | error e =>
      simp only
      rw [ih (attempt + 1) (delay * 2) (fun i h1 h2 => h i (by omega) (by omega))]
      have harith : attempt + 1 + fuel = attempt + (fuel + 1) := by omega
      rw [harith]
      simp only [RetryTrace.mk.injEq, true_and]
      rw [List.range_succ_eq_map]
      simp only [List.map_cons, List.map_map, pow_zero, Nat.mul_one]
      congr 1
      apply List.map_congr_left
      intro i _
      simp only [Function.comp_apply, pow_succ]
      ring

theorem retryLoop_success {ε α : Type} (fn : Nat → Except ε α) :
    ∀ (k fuel attempt delay : Nat) (a : α),
      (∀ i, attempt ≤ i → i < attempt + k → (fn i).isOk = false) →
      fn (attempt + k) = Except.ok a → k ≤ fuel →
      retryLoop fn fuel attempt delay =
        { result := Except.ok a, calls := k + 1,
          sleeps := (List.range k).map (fun i => delay * 2 ^ i) } := by
  intro k
  induction k with
  | zero =>
    intro fuel attempt delay a _ hok _
    rw [retryLoop]
    rw [Nat.add_zero] at hok
    simp [hok]
  | succ k ih =>
    intro fuel attempt delay a h hok hk
    have hfail := h attempt (Nat.le_refl _) (by omega)
    rw [retryLoop]
    cases hfn : fn attempt with
    | ok b => rw [hfn] at hfail; simp [Except.isOk, Except.toBool] at hfail
    | error e =>
      cases fuel with
      | zero => omega
      | succ fuel' =>
        simp only
        rw [ih fuel' (attempt + 1) (delay * 2) a
          (fun i h1 h2 => h i (by omega) (by omega))
          (by have : attempt + 1 + k = attempt + (k + 1) := by omega
              rw [this]; exact hok)
          (by omega)]
        simp only [RetryTrace.mk.injEq, true_and]
        rw [List.range_succ_eq_map]
        simp only [List.map_cons, List.map_map, pow_zero, Nat.mul_one]
        congr 1
        apply List.map_congr_left
        intro i _
        simp only [Function.comp_apply, pow_succ]
        ring

theorem retryLoop_calls_le {ε α : Type} (fn : Nat → Except ε α) :
    ∀ (fuel attempt delay : Nat),
      (retryLoop fn fuel attempt delay).calls ≤ fuel + 1 := by
  intro fuel
  induction fuel with
  | zero =>
    intro attempt delay
    rw [retryLoop]
    cases fn attempt <;> simp
  | succ fuel ih =>
    intro attempt delay
    rw [retryLoop]
    cases fn attempt with
    | ok a => simp
    | error e =>
      simp only
      have := ih (attempt + 1) (delay * 2)
      omega

/-- Claim C8 (amended): `retryWithBackoff` invokes `fn` at most
`max maxRetries 1` times (for `maxRetries ≥ 1` that is exactly the claimed
`maxRetries` bound, but `maxRetries = 0` still invokes `fn` once); it
returns `fn`'s result as soon as one invocation succeeds; the delays slept
between consecutive failed attempts start at `initialDelay` and double
after each failure; and when every attempt in the budget fails the last
error is rethrown. -/
theorem retryWithBackoff_spec {ε α : Type} (fn : Nat → Except ε α)
    (maxRetries initialDelay : Nat) :
    (retryWithBackoff fn maxRetries initialDelay).calls ≤ max maxRetries 1 ∧
    ((∀ i, i < max maxRetries 1 → (fn i).isOk = false) →
      retryWithBackoff fn maxRetries initialDelay =
        { result := fn (max maxRetries 1 - 1), calls := max maxRetries 1,
          sleeps := (List.range (max maxRetries 1 - 1)).map
            (fun i => initialDelay * 2 ^ i) }) ∧
    (∀ k a, (∀ i, i < k → (fn i).isOk = false) → fn k = Except.ok a →
      k + 1 ≤ max maxRetries 1 →
      retryWithBackoff fn maxRetries initialDelay =
        { result := Except.ok a, calls := k + 1,
          sleeps := (List.range k).map (fun i => initialDelay * 2 ^ i) }) := by
  have hfu : maxRetries - 1 + 1 = max maxRetries 1 := by omega
  refine ⟨?_, ?_, ?_⟩
  · have := retryLoop_calls_le fn (maxRetries - 1) 0 initialDelay
    rw [retryWithBackoff]
    omega
  · intro h
    rw [retryWithBackoff,
      retryLoop_all_fail fn (maxRetries - 1) 0 initialDelay
        (fun i h1 h2 => h i (by omega))]
    have h1 : 0 + (maxRetries - 1) = max maxRetries 1 - 1 := by omega
    have h2 : maxRetries - 1 + 1 = max maxRetries 1 := hfu
    rw [h1, h2]
    have h3 : maxRetries - 1 = max maxRetries 1 - 1 := by omega
    rw [h3]
  · intro k a hfails hok hk
    rw [retryWithBackoff,
      retryLoop_success fn k (maxRetries - 1) 0 initialDelay a
        (fun i h1 h2 => hfails i (by omega))
        (by rw [Nat.zero_add]; exact hok)
        (by omega)]

theorem candidatesLoop_trace (callGemini : Nat → CallResult) :
    ∀ ps : List DetailedPosition, (candidatesLoop callGemini ps).2 = ps := by
  intro ps
  induction ps generalizing callGemini with
  | nil => rfl
  | cons p rest ih =>
    simp only [candidatesLoop]
    rw [ih]

theorem candidatesLoop_length (callGemini : Nat → CallResult) :
    ∀ ps : List DetailedPosition,
      (candidatesLoop callGemini ps).1.length = ps.length := by
  intro ps
  induction ps generalizing callGemini with
  | nil => rfl
  | cons p rest ih =>
    simp only [candidatesLoop, List.length_cons]
    rw [ih]

theorem candidatesLoop_get (callGemini : Nat → CallResult)
    (ps : List DetailedPosition) :
    ∀ k p, ps[k]? = some p →
      (∀ r, callGemini k = CallResult.ok r →
        (candidatesLoop callGemini ps).1[k]? = some (p, r)) ∧
      (∀ msg, callGemini k = CallResult.err msg →
        (candidatesLoop callGemini ps).1[k]? =
          some (p, candidateErrorPlaceholder p.positionName msg)) := by
  induction ps generalizing callGemini with
  | nil => intro k p hk; simp at hk
  | cons q rest ih =>
    intro k p hk
    cases k with
    | zero =>
      simp only [List.getElem?_cons_zero, Option.some.injEq] at hk
      subst hk
      constructor
      · intro r hr
        simp only [candidatesLoop, hr, List.getElem?_cons_zero]
      · intro msg hmsg
        simp only [candidatesLoop, hmsg, List.getElem?_cons_zero]
    | succ j =>
      simp only [List.getElem?_cons_succ] at hk
      have := ih (fun n => callGemini (n + 1)) j p hk
      constructor
      · intro r hr
        simp only [candidatesLoop, List.getElem?_cons_succ]
        exact this.1 r hr
      · intro msg hmsg
        simp only [candidatesLoop, List.getElem?_cons_succ]
        exact this.2 msg hmsg

theorem suffix_cons_self {α : Type} (a : α) (l : List α) : l <:+ a :: l :=
  ⟨[a], rfl⟩

theorem suffix_of_cons_suffix {α : Type} {r l : List α} (a : α)
    (h : r <:+ l) : r <:+ a :: l :=
  h.trans (suffix_cons_self a l)

theorem skipWs_suffix (cs : List Char) : skipWs cs <:+ cs :=
  List.dropWhile_suffix isJsonWs

theorem parseStringRest_suffix :
    ∀ (cs content r : List Char),
      parseStringRest cs = some (content, r) → r <:+ cs := by
  have H : ∀ (n : Nat) (cs content r : List Char), cs.length = n →
      parseStringRest cs = some (content, r) → r <:+ cs := by
    intro n
    induction n using Nat.strong_induction_on with
    | _ n ih =>
      intro cs content r hn h
      rw [parseStringRest.eq_def] at h
      repeat' split at h
      all_goals try exact Option.noConfusion h
      all_goals cases h
      all_goals first
        | exact suffix_cons_self _ _
        | (rename_i s' heq
           refine (ih _ (by subst hn; simp only [List.length_cons]; omega) _ _ _ rfl heq).trans ?_
           first
             | exact suffix_of_cons_suffix _ (suffix_of_cons_suffix _
                 (suffix_of_cons_suffix _ (suffix_of_cons_suffix _
                   (suffix_of_cons_suffix _ (suffix_of_cons_suffix _
                     (List.suffix_refl _))))))
             | exact suffix_of_cons_suffix _ (suffix_of_cons_suffix _
                 (List.suffix_refl _))
             | exact suffix_of_cons_suffix _ (List.suffix_refl _))
  intro cs content r h
  exact H cs.length cs content r rfl h

theorem drop_isSuffix {α : Type} (n : Nat) (l : List α) : l.drop n <:+ l :=
  ⟨l.take n, List.take_append_drop n l⟩

theorem cons_of_skipWs {a b : List Char} {c : Char} (heq : skipWs a = c :: b) :
    (c :: b) <:+ a :=
  heq ▸ skipWs_suffix a

theorem tail_of_skipWs {a b : List Char} {c : Char} (heq : skipWs a = c :: b) :
    b <:+ a :=
  (suffix_cons_self c b).trans (cons_of_skipWs heq)

theorem parseNumber_suffix (cs : List Char) (v : Json) (r : List Char)
    (h : parseNumber cs = some (v, r)) : r <:+ cs := by
  simp only [parseNumber] at h
  split at h
  · exact Option.noConfusion h
  · split at h
    · exact Option.noConfusion h
    · cases h
      split
      next c rest hmatch =>
        split
        next hc => exact (List.dropWhile_suffix _).trans (suffix_cons_self _ _)
        next hc => exact List.dropWhile_suffix _
      next => exact List.dropWhile_suffix _

theorem expectLit_suffix (lit cs : List Char) (w v : Json) (r : List Char)
    (h : expectLit lit cs w = some (v, r)) : r <:+ cs := by
  rw [expectLit] at h
  split at h
  · cases h
    exact drop_isSuffix _ _
  · exact Option.noConfusion h

theorem through_skipWs {X Z : List Char} (h : Z <:+ skipWs X) : Z <:+ X :=
  h.trans (skipWs_suffix X)

theorem through_skipWs_cons {X Y Z : List Char} {c : Char}
    (hws : skipWs X = c :: Y) (h : Z <:+ Y) : Z <:+ X :=
  (h.trans (suffix_cons_self c Y)).trans (cons_of_skipWs hws)

theorem parser_consumes :
    ∀ fuel : Nat,
      (∀ cs v rest, parseVal fuel cs = some (v, rest) → rest <:+ cs) ∧
      (∀ cs v rest, parseObjRest fuel cs = some (v, rest) →
        ('}' :: rest) <:+ cs) ∧
      (∀ cs fs rest, parseMembers fuel cs = some (fs, rest) →
        ('}' :: rest) <:+ cs) ∧
      (∀ cs v rest, parseArrRest fuel cs = some (v, rest) → rest <:+ cs) ∧
      (∀ cs vs rest, parseElems fuel cs = some (vs, rest) → rest <:+ cs) := by
  intro fuel
  induction fuel with
  | zero =>
    refine ⟨?_, ?_, ?_, ?_, ?_⟩ <;> intro cs a rest h <;>
      simp [parseVal, parseObjRest, parseMembers, parseArrRest, parseElems] at h
  | succ fuel ih =>
    obtain ⟨ihV, ihO, ihM, ihA, ihE⟩ := ih
    refine ⟨?_, ?_, ?_, ?_, ?_⟩
    · intro cs v rest h
      rw [parseVal.eq_def] at h
      simp only [] at h
      split at h
      · exact Option.noConfusion h
      · rename_i c rest0
        split_ifs at h with h1 h2 h3 h4 h5 h6
        · subst h1
          have hobj := ihO _ _ _ h
          exact ((suffix_cons_self '}' rest).trans hobj).trans
            ((skipWs_suffix rest0).trans (suffix_cons_self _ _))
        · subst h2
          have harr := ihA _ _ _ h
          exact (harr.trans (skipWs_suffix rest0)).trans (suffix_cons_self _ _)
        · subst h3
          split at h
          · rename_i content r' heq
            cases h
            exact (parseStringRest_suffix _ _ _ heq).trans (suffix_cons_self _ _)
          · exact Option.noConfusion h
        · exact (expectLit_suffix _ _ _ _ _ h).trans (suffix_cons_self _ _)
        · exact (expectLit_suffix _ _ _ _ _ h).trans (suffix_cons_self _ _)
        · exact (expectLit_suffix _ _ _ _ _ h).trans (suffix_cons_self _ _)
        · exact parseNumber_suffix _ _ _ h
    · intro cs v rest h
      rw [parseObjRest.eq_def] at h
      simp only [] at h
      split at h
      · exact Option.noConfusion h
      · rename_i c rest0
        split_ifs at h with h1
        · subst h1
          cases h
          exact List.suffix_refl _
        · split at h
          · rename_i fields r' heq
            cases h
            exact ihM _ _ _ heq
          · exact Option.noConfusion h
    · intro cs fs rest h
      rw [parseMembers.eq_def] at h
      repeat' split at h
      all_goals try exact Option.noConfusion h
      all_goals cases h
      next x1 x2 fuelb hfe csa ea cs2a ha xa sa ra hstr csb eb cs2b hws1 hb
          xb v1 r3 hval csc ec cs2c hws2 hc xc fields1 hmem =>
        have hf : fuelb = fuel := Nat.succ.inj hfe.symm
        subst hf
        subst ha
        have s1 : ('}' :: rest) <:+ skipWs cs2c := ihM _ _ _ hmem
        have s2 : ('}' :: rest) <:+ r3 :=
          through_skipWs_cons hws2 (through_skipWs s1)
        have s3 : ('}' :: rest) <:+ skipWs cs2b := s2.trans (ihV _ _ _ hval)
        have s4 : ('}' :: rest) <:+ ra :=
          through_skipWs_cons hws1 (through_skipWs s3)
        have s5 : ('}' :: rest) <:+ cs2a :=
          s4.trans (parseStringRest_suffix _ _ _ hstr)
        exact suffix_of_cons_suffix _ s5
      next x1 x2 fuelb hfe csa ea cs2a ha xa sa ra hstr csb eb cs2b hws1 hb
          xb v1 r3 hval csc ec hcne hc hws2 =>
        have hf : fuelb = fuel := Nat.succ.inj hfe.symm
        subst hf
        subst ha
        subst hc
        have s2 : ('}' :: rest) <:+ r3 := cons_of_skipWs hws2
        have s3 : ('}' :: rest) <:+ skipWs cs2b := s2.trans (ihV _ _ _ hval)
        have s4 : ('}' :: rest) <:+ ra :=
          through_skipWs_cons hws1 (through_skipWs s3)
        have s5 : ('}' :: rest) <:+ cs2a :=
          s4.trans (parseStringRest_suffix _ _ _ hstr)
        exact suffix_of_cons_suffix _ s5
    · intro cs v rest h
      rw [parseArrRest.eq_def] at h
      simp only [] at h
      split at h
      · exact Option.noConfusion h
      · rename_i c rest0
        split_ifs at h with h1
        · cases h
          exact suffix_cons_self _ _
        · split at h
          · rename_i vs r' heq
            cases h
            exact ihE _ _ _ heq
          · exact Option.noConfusion h
    · intro cs vs rest h
      rw [parseElems.eq_def] at h
      simp only [] at h
      split at h
      · rename_i v r1 hval
        split at h
        · exact Option.noConfusion h
        · rename_i c2 r2 hws
          split_ifs at h with hc1 hc2
          · split at h
            · rename_i vs' r3 helems
              cases h
              have step1 : rest <:+ skipWs r2 := ihE _ _ _ helems
              have step2 : rest <:+ r2 := step1.trans (skipWs_suffix r2)
              have step3 : rest <:+ r1 :=
                (step2.trans (suffix_cons_self _ _)).trans (cons_of_skipWs hws)
              exact step3.trans (ihV _ _ _ hval)
            · exact Option.noConfusion h
          · cases h
            have step3 : rest <:+ r1 := tail_of_skipWs hws
            exact step3.trans (ihV _ _ _ hval)
      all_goals exact Option.noConfusion h

theorem parseNumber_num (cs : List Char) (v : Json) (r : List Char)
    (h : parseNumber cs = some (v, r)) : ∃ n, v = Json.num n := by
  simp only [parseNumber] at h
  split at h
  · exact Option.noConfusion h
  · split at h
    · exact Option.noConfusion h
    · cases h
      exact ⟨_, rfl⟩

theorem parseArrRest_arr (fuel : Nat) (cs : List Char) (v : Json)
    (r : List Char) (h : parseArrRest fuel cs = some (v, r)) :
    ∃ l, v = Json.arr l := by
  cases fuel with
  | zero => simp [parseArrRest] at h
  | succ fuel =>
    rw [parseArrRest.eq_def] at h
    simp only [] at h
    split at h
    · exact Option.noConfusion h
    · split_ifs at h with h1
      · cases h
        exact ⟨[], rfl⟩
      · split at h
        · cases h
          exact ⟨_, rfl⟩
        · exact Option.noConfusion h

theorem parseVal_obj (fuel : Nat) (cs : List Char)
    (fields : List (String × Json)) (rest : List Char)
    (h : parseVal fuel cs = some (Json.obj fields, rest)) :
    ∃ rest0, cs = '{' :: rest0 ∧ ('}' :: rest) <:+ skipWs rest0 := by
  cases fuel with
  | zero => simp [parseVal] at h
  | succ fuel =>
    rw [parseVal.eq_def] at h
    simp only [] at h
    split at h
    · exact Option.noConfusion h
    · rename_i c rest0
      split_ifs at h with h1 h2 h3 h4 h5 h6
      · subst h1
        exact ⟨rest0, rfl, (parser_consumes fuel).2.1 _ _ _ h⟩
      · obtain ⟨l, hl⟩ := parseArrRest_arr _ _ _ _ h
        exact Json.noConfusion hl
      · split at h
        · cases h
        · exact Option.noConfusion h
      · rw [expectLit] at h
        split at h
        · cases h
        · exact Option.noConfusion h
      · rw [expectLit] at h
        split at h
        · cases h
        · exact Option.noConfusion h
      · rw [expectLit] at h
        split at h
        · cases h
        · exact Option.noConfusion h
      · obtain ⟨n, hn⟩ := parseNumber_num _ _ _ h
        exact Json.noConfusion hn

theorem spanFromFirstBrace_decomp :
    ∀ (l m r : List Char),
      ∃ tail, spanFromFirstBrace (l ++ '{' :: m ++ '}' :: r) = '{' :: tail ∧
        '}' ∈ tail := by
  intro l
  induction l with
  | nil =>
    intro m r
    refine ⟨m ++ '}' :: r, ?_, by simp⟩
    simp [spanFromFirstBrace, List.dropWhile]
  | cons a l ih =>
    intro m r
    by_cases ha : a = '{'
    · subst ha
      refine ⟨l ++ '{' :: m ++ '}' :: r, ?_, by simp⟩
      simp [spanFromFirstBrace, List.dropWhile]
    · obtain ⟨tail, h1, h2⟩ := ih m r
      refine ⟨tail, ?_, h2⟩
      rw [← h1]
      simp [spanFromFirstBrace, List.dropWhile, ha]

theorem truncAtLastClose_isSome {tail : List Char} (h : '}' ∈ tail) :
    ∃ body, truncAtLastClose tail = some body := by
  have hne : tail.reverse.dropWhile (fun c => ¬ (c = '}')) ≠ [] := by
    intro hempty
    rw [List.dropWhile_eq_nil_iff] at hempty
    have hmem : '}' ∈ tail.reverse := by simpa using h
    have := hempty '}' hmem
    simp at this
  rcases hcase : tail.reverse.dropWhile (fun c => ¬ (c = '}')) with _ | ⟨a, l⟩
  · exact absurd hcase hne
  · exact ⟨(a :: l).reverse, by rw [truncAtLastClose, hcase]⟩

theorem extractJsonSpan_isSome_of (s : String) (l m r : List Char)
    (h : s.data = l ++ '{' :: m ++ '}' :: r) :
    ∃ span, extractJsonSpan s = some span := by
  obtain ⟨tail, h1, h2⟩ := spanFromFirstBrace_decomp l m r
  rw [← h] at h1
  obtain ⟨body, h3⟩ := truncAtLastClose_isSome h2
  refine ⟨String.mk ('{' :: body), ?_⟩
  rw [extractJsonSpan.eq_def, h1]
  simp only []
  rw [h3]

theorem parse_obj_extract (s : String) (fields : List (String × Json))
    (h : Json.parse s = some (Json.obj fields)) :
    ∃ span, extractJsonSpan s = some span := by
  rw [Json.parse] at h
  split at h
  · rename_i v rest hval
    split_ifs at h with hrest
    · cases h
      obtain ⟨rest0, hcs, hsufwk⟩ := parseVal_obj _ _ _ _ hval
      have hsuf : ('}' :: rest) <:+ rest0 := through_skipWs hsufwk
      obtain ⟨pre2, hpre2⟩ := hsuf
      obtain ⟨w, hw⟩ := skipWs_suffix s.data
      apply extractJsonSpan_isSome_of s w pre2 rest
      rw [← hw, hcs, ← hpre2]
      simp
  · exact Option.noConfusion h

theorem topArrayField_non_obj (j : Json) (key : String)
    (h : ∀ fields, j ≠ Json.obj fields) : topArrayField j key = none := by
  cases j with
  | obj fields => exact absurd rfl (h fields)
  | _ => rfl

/-- Claim C1: for every input string, the response parsers never throw: when
no brace-delimited JSON span is found, when strict JSON parsing of the
isolated span fails, or when the required top-level array field
(`elections` / `positions_up_for_election`) is missing or not an array,
`parseAIGeneratedJson` and `validateRawPositions` return the empty list. -/
theorem response_parsers_return_empty_on_malformed
    (jsNewDate : Option Json → Option Int) (s : String)
    (basicElection : BasicElection) :
    (extractJsonSpan s = none →
      validateRawPositions s basicElection = [] ∧
      parseAIGeneratedJson jsNewDate s basicElection = []) ∧
    (∀ span, extractJsonSpan s = some span → Json.parse span = none →
      validateRawPositions s basicElection = [] ∧
      parseAIGeneratedJson jsNewDate s basicElection = []) ∧
    (∀ span parsed, extractJsonSpan s = some span →
      Json.parse span = some parsed →
      (topArrayField parsed "positions_up_for_election" = none →
        validateRawPositions s basicElection = []) ∧
      (topArrayField parsed "elections" = none →
        parseAIGeneratedJson jsNewDate s basicElection = [])) := by
  refine ⟨?_, ?_, ?_⟩
  · intro hnone
    constructor
    · simp only [validateRawPositions, hnone]
    · cases hp : Json.parse s with
      | none => simp only [parseAIGeneratedJson, hnone, Option.getD_none, hp]
      | some parsed =>
        have hnotobj : ∀ fields, parsed ≠ Json.obj fields := by
          intro fields hobj
          subst hobj
          obtain ⟨span, hspan⟩ := parse_obj_extract s fields hp
          rw [hspan] at hnone
          exact Option.noConfusion hnone
        simp only [parseAIGeneratedJson, hnone, Option.getD_none, hp,
          topArrayField_non_obj parsed "elections" hnotobj]
  · intro span hspan hpnone
    constructor
    · simp only [validateRawPositions, hspan, hpnone]
    · simp only [parseAIGeneratedJson, hspan, Option.getD_some, hpnone]
  · intro span parsed hspan hp
    constructor
    · intro htop
      simp only [validateRawPositions, hspan, hp, htop]
    · intro htop
      simp only [parseAIGeneratedJson, hspan, Option.getD_some, hp, htop]

/-- Claim C10: for every array and every chunk size greater than zero, the
chunks of `chunkArray` concatenate back to the original array in order,
every chunk except possibly the last has length exactly `size`, and no
chunk is ever empty. -/
theorem chunkArray_spec {α : Type} (xs : List α) (size : Nat)
    (hs : 0 < size) :
    (chunkArray xs size).flatten = xs ∧
    (∀ i c, (chunkArray xs size)[i]? = some c →
      i + 1 < (chunkArray xs size).length → c.length = size) ∧
    (∀ c ∈ chunkArray xs size, c ≠ []) :=
  ⟨chunkArray_flatten xs size hs,
   chunkArray_full_chunks size hs xs,
   chunkArray_ne_nil_of_mem size hs xs⟩

/-- Claim C10 witness: concrete instance at size 2. -/
theorem chunkArray_spec_witness :
    (chunkArray [1, 2, 3] 2).flatten = [1, 2, 3] :=
  (chunkArray_spec [1, 2, 3] 2 (by decide)).1

/-- Claim C8 counterexample: with `maxRetries = 0` the function is still
invoked once, contradicting "at most maxRetries invocations". -/
theorem retry_zero_budget_invokes_once :
    (retryWithBackoff failAlways 0 1000).calls = 1 ∧
    ¬ ((retryWithBackoff failAlways 0 1000).calls ≤ 0) := by decide

/-- Claim C8 witness: two failures, then success at the third attempt:
three invocations, delays 100 then 200, and the successful result. -/
theorem retryWithBackoff_spec_witness :
    retryWithBackoff okAtTwo 5 100 =
      { result := Except.ok 42, calls := 3, sleeps := [100, 200] } := by
  have h := (retryWithBackoff_spec okAtTwo 5 100).2.2 2 42 (by decide)
    (by rfl) (by decide)
  rw [h]
  rfl

/-- Claim C4: the sequencer issues exactly one request per validated
position, in input order, returns one result entry per position aligned
with the input, and a failed request at position k yields a synthetic
error placeholder for k without stopping later requests. -/
theorem candidate_sequencer_spec (callGemini : Nat → CallResult)
    (detailedPositions : List DetailedPosition) :
    (getDetailedCandidatesInfoWithLogging callGemini detailedPositions).2 =
      detailedPositions ∧
    (getDetailedCandidatesInfoWithLogging callGemini
        detailedPositions).1.length = detailedPositions.length ∧
    (∀ k p, detailedPositions[k]? = some p →
      (∀ r, callGemini k = CallResult.ok r →
        (getDetailedCandidatesInfoWithLogging callGemini
          detailedPositions).1[k]? = some (p, r)) ∧
      (∀ msg, callGemini k = CallResult.err msg →
        (getDetailedCandidatesInfoWithLogging callGemini
          detailedPositions).1[k]? =
            some (p, candidateErrorPlaceholder p.positionName msg))) := by
  cases detailedPositions with
  | nil =>
    refine ⟨rfl, rfl, ?_⟩
    intro k p hk
    simp at hk
  | cons q rest =>
    have hne : (q :: rest : List DetailedPosition).length ≠ 0 := by simp
    simp only [getDetailedCandidatesInfoWithLogging, if_neg hne]
    exact ⟨candidatesLoop_trace _ _, candidatesLoop_length _ _,
      candidatesLoop_get _ _⟩

/-- Claim C4 witness: with the first request failing, entry 0 is the
synthetic placeholder and the second request was still issued. -/
theorem candidate_sequencer_spec_witness :
    (getDetailedCandidatesInfoWithLogging seqOracle seqPositions).1[0]? =
      some ({ positionName := "Mayor", electionDate := 0, city := "",
              state := "", description := "", type := ElectionType.LOCAL,
              positions := 1 },
            candidateErrorPlaceholder "Mayor" "boom") :=
  ((candidate_sequencer_spec seqOracle seqPositions).2.2 0 _ rfl).2 "boom" rfl

/-- Claim C7: seat-count coercion in `validateRawPositions`: the numeric
string "3" parses to 3, the non-numeric string "three" defaults to 1, and
an absent value defaults to 1 — both for the coercion itself and through a
full `validateRawPositions` run. -/
theorem seat_count_coercion :
    (validateRawPositions seatCountReply seedElection).map
      (fun p => (p.positionName, p.positions)) =
      [("A", 3), ("B", 1), ("C", 1)] ∧
    coerceSeatCount (some (Json.str "3")) = 3 ∧
    coerceSeatCount (some (Json.str "three")) = 1 ∧
    coerceSeatCount none = 1 := by
  set_option maxRecDepth 10000 in decide

theorem electionTypeOfUpper_none (u : String)
    (h1 : u ≠ "LOCAL") (h2 : u ≠ "STATE") (h3 : u ≠ "NATIONAL")
    (h4 : u ≠ "UNIVERSITY") : electionTypeOfUpper u = none := by
  simp [electionTypeOfUpper, h1, h2, h3, h4]

theorem transformElectionType_str (s : String) :
    transformElectionType (Sum.inr s) =
      (electionTypeOfUpper (jsToUpper s)).getD ElectionType.LOCAL := by
  simp only [transformElectionType]
  cases electionTypeOfUpper (jsToUpper s) <;> rfl

theorem parseJsonElectionType_str (s : String) :
    parseJsonElectionType (some (Json.str s)) =
      (electionTypeOfUpper (jsToUpper s)).getD ElectionType.LOCAL := by
  have hfall : parseJsonElectionTypeFallback (some (Json.str s)) =
      (electionTypeOfUpper (jsToUpper s)).getD ElectionType.LOCAL := by
    by_cases hs : s = ""
    · subst hs
      decide
    · have ht : jsTruthy (Json.str s) = true := by simp [jsTruthy, hs]
      simp only [parseJsonElectionTypeFallback, ht, if_true, jsToString]
      cases electionTypeOfUpper (jsToUpper s) <;> rfl
  cases h : electionTypeOfUpper s with
  | none => simp only [parseJsonElectionType, h, hfall]
  | some t =>
    simp only [electionTypeOfUpper] at h
    split_ifs at h with h1 h2 h3 h4
    · subst h1; cases h; decide
    · subst h2; cases h; decide
    · subst h3; cases h; decide
    · subst h4; cases h; decide

/-- Claim C3 (corrected): election-type coercion facts.  In
`validateRawPositions` the strings federal/FEDERAL/National all map to
NATIONAL; in `parseAIGeneratedJson` and `transformElectionType` only the
four enum names are recognized case-insensitively, so National maps to
NATIONAL but federal maps to LOCAL.  All three coercions are functions of
the uppercased input (case-insensitive), are idempotent (each enum name
maps back to its value), and send every unrecognized string to LOCAL. -/
theorem election_type_coercion_spec :
    (positionTypeOfString "federal" = ElectionType.NATIONAL ∧
     positionTypeOfString "FEDERAL" = ElectionType.NATIONAL ∧
     positionTypeOfString "National" = ElectionType.NATIONAL) ∧
    (parseJsonElectionType (some (Json.str "National")) =
        ElectionType.NATIONAL ∧
     parseJsonElectionType (some (Json.str "federal")) =
        ElectionType.LOCAL ∧
     transformElectionType (Sum.inr "National") = ElectionType.NATIONAL ∧
     transformElectionType (Sum.inr "federal") = ElectionType.LOCAL) ∧
    (∀ s t : String, jsToUpper s = jsToUpper t →
      positionTypeOfString s = positionTypeOfString t ∧
      parseJsonElectionType (some (Json.str s)) =
        parseJsonElectionType (some (Json.str t)) ∧
      transformElectionType (Sum.inr s) = transformElectionType (Sum.inr t)) ∧
    (∀ ty : ElectionType,
      positionTypeOfString ty.toStr = ty ∧
      parseJsonElectionType (some (Json.str ty.toStr)) = ty ∧
      transformElectionType (Sum.inr ty.toStr) = ty) ∧
    (∀ s : String,
      jsToUpper s ∉ ["LOCAL", "STATE", "FEDERAL", "NATIONAL", "UNIVERSITY"] →
      positionTypeOfString s = ElectionType.LOCAL ∧
      parseJsonElectionType (some (Json.str s)) = ElectionType.LOCAL ∧
      transformElectionType (Sum.inr s) = ElectionType.LOCAL) := by
  refine ⟨by decide, by decide, ?_, ?_, ?_⟩
  · intro s t h
    refine ⟨?_, ?_, ?_⟩
    · simp only [positionTypeOfString]
      rw [h]
    · rw [parseJsonElectionType_str, parseJsonElectionType_str, h]
    · rw [transformElectionType_str, transformElectionType_str, h]
  · intro ty
    cases ty <;> exact ⟨by decide, by decide, by decide⟩
  · intro s hmem
    simp only [List.mem_cons, List.not_mem_nil, or_false, not_or] at hmem
    obtain ⟨n1, n2, n3, n4, n5⟩ := hmem
    have hup := electionTypeOfUpper_none (jsToUpper s) n1 n2 n4 n5
    refine ⟨?_, ?_, ?_⟩
    · simp [positionTypeOfString, n1, n2, n3, n4, n5]
    · rw [parseJsonElectionType_str, hup]
      rfl
    · rw [transformElectionType_str, hup]
      rfl

/-- Claim C3 counterexample: the string federal does not normalize to
NATIONAL in `parseAIGeneratedJson`'s coercion nor in
`transformElectionType` — both send it to LOCAL. -/
theorem federal_maps_to_local_counterexample :
    transformElectionType (Sum.inr "federal") = ElectionType.LOCAL ∧
    parseJsonElectionType (some (Json.str "federal")) = ElectionType.LOCAL ∧
    ElectionType.LOCAL ≠ ElectionType.NATIONAL := by decide

/-- Claim C3 witness: an unrecognized category string defaults to LOCAL. -/
theorem election_type_coercion_spec_witness :
    positionTypeOfString "County-Wide" = ElectionType.LOCAL :=
  (election_type_coercion_spec.2.2.2.2 "County-Wide" (by decide)).1

/-- Claim C5 (amended): when the research reply contains no JSON object
the Position Validator returns the empty list and no candidate requests
are issued; the orchestrator nevertheless still issues the transformation
request, and its per-seed result is exactly the parse of the
transformation reply (empty only when that parse yields no elections). -/
theorem no_json_research_short_circuits
    (jsNewDate : Option Json → Option Int) (calls : GeminiCalls)
    (basicElection : BasicElection) (raw : String)
    (hres : calls.research = CallResult.ok raw)
    (hnojson : extractJsonSpan raw = none) :
    validateRawPositions raw basicElection = [] ∧
    orchestratorCandidateTrace calls basicElection = [] ∧
    getDetailedElectionInfoWithRawResponses jsNewDate calls basicElection =
      (match calls.transform with
       | CallResult.ok sj =>
         Except.ok (sj, parseAIGeneratedJson jsNewDate sj basicElection)
       | CallResult.err e => Except.error e) := by
  have hval : validateRawPositions raw basicElection = [] := by
    simp only [validateRawPositions, hnojson]
  refine ⟨hval, ?_, ?_⟩
  · simp only [orchestratorCandidateTrace, hres, hval]
    rfl
  · simp only [getDetailedElectionInfoWithRawResponses, hres]
    cases calls.transform <;> rfl

set_option maxRecDepth 10000 in
/-- Claim C5 counterexample: with a prose research reply holding no JSON
object and a well-formed transformation reply, the validator returns the
empty list and no candidate requests are issued, yet the orchestrator
returns ONE election for the seed rather than an empty list. -/
theorem orchestrator_nonempty_after_no_json_research :
    extractJsonSpan proseReply = none ∧
    validateRawPositions proseReply seedElection = [] ∧
    orchestratorCandidateTrace noJsonCalls seedElection = [] ∧
    (getDetailedElectionInfoWithRawResponses noDateParse noJsonCalls
        seedElection).map (fun r => r.2.length) = Except.ok 1 :=
  ⟨rfl, rfl, rfl, rfl⟩

/-- Claim C5 witness: concrete instance of the amended statement. -/
theorem no_json_research_short_circuits_witness :
    validateRawPositions proseReply seedElection = [] ∧
    orchestratorCandidateTrace noJsonCalls seedElection = [] :=
  ⟨(no_json_research_short_circuits noDateParse noJsonCalls seedElection
      proseReply rfl rfl).1,
   (no_json_research_short_circuits noDateParse noJsonCalls seedElection
      proseReply rfl rfl).2.1⟩

theorem exceptMap_ok_length {m g : Type} (f : m → Except Unit g) :
    ∀ (l : List m) (ys : List g), exceptMap f l = Except.ok ys →
      ys.length = l.length := by
  intro l
  induction l with
  | nil =>
    intro ys h
    cases h
    rfl
  | cons b rest ih =>
    intro ys h
    simp only [exceptMap] at h
    split at h
    · exact Except.noConfusion h
    · split at h
      · exact Except.noConfusion h
      · rename_i g1 hfb gs hrest
        cases h
        simp only [List.length_cons, ih _ hrest]

/-- Claim C2 (corrected): in `parseAIGeneratedJson`, the sentinel entry is
substituted for `keyPolicies`/`sources` only when the field is absent or
not an array; an empty array passes through as an empty output list, and
the transformer maps candidate policy and source lists without ever
substituting a sentinel — so output lists can be empty. -/
theorem candidate_list_sentinels (c : Json) (cand : Candidate)
    (h : mapCandidate c = Except.ok cand) :
    (∀ l, Json.getF c "keyPolicies" = some (Json.arr l) →
      cand.keyPolicies.length = l.length) ∧
    ((∀ l, Json.getF c "keyPolicies" ≠ some (Json.arr l)) →
      cand.keyPolicies =
        [{ title := "Policy",
           description := "No specific policies mentioned" }]) ∧
    (∀ l, Json.getF c "sources" = some (Json.arr l) →
      cand.sources = l.map jsToString) ∧
    ((∀ l, Json.getF c "sources" ≠ some (Json.arr l)) →
      cand.sources = ["No sources found"]) ∧
    (∀ (urlValid : String → Bool) (e : DetailedElection),
      (transformSingleElection urlValid e).candidates.map
          (fun cd => cd.keyPolicies.length) =
        e.candidates.map (fun cd => cd.keyPolicies.length) ∧
      (transformSingleElection urlValid e).candidates.map
          (fun cd => cd.sources) =
        e.candidates.map (fun cd => cd.sources)) := by
  have htr : ∀ (urlValid : String → Bool) (e : DetailedElection),
      (transformSingleElection urlValid e).candidates.map
          (fun cd => cd.keyPolicies.length) =
        e.candidates.map (fun cd => cd.keyPolicies.length) ∧
      (transformSingleElection urlValid e).candidates.map
          (fun cd => cd.sources) =
        e.candidates.map (fun cd => cd.sources) := by
    intro urlValid e
    constructor <;>
      simp [transformSingleElection, transformCandidate, transformPolicy,
        List.map_map, Function.comp]
  by_cases hnull : c.isNull
  · simp only [mapCandidate, hnull, if_true] at h
    exact Except.noConfusion h
  · simp only [mapCandidate, hnull, Bool.false_eq_true, if_false] at h
    split at h
    · exact Except.noConfusion h
    · rename_i kps hkps
      cases h
      split at hkps
      · rename_i l0 heq
        refine ⟨?_, ?_, ?_, ?_, htr⟩
        · intro l hl
          rw [heq] at hl
          cases hl
          exact exceptMap_ok_length mapPolicy l0 kps hkps
        · intro hnot
          exact absurd heq (hnot l0)
        · intro l hl
          show (match Json.getF c "sources" with
                | some (Json.arr la) => la.map jsToString
                | _ => ["No sources found"]) = l.map jsToString
          rw [hl]
        · intro hnot
          show (match Json.getF c "sources" with
                | some (Json.arr la) => la.map jsToString
                | _ => ["No sources found"]) = ["No sources found"]
          split
          · rename_i la heq2
            exact absurd heq2 (hnot la)
          · rfl
      · rename_i hnomatch
        cases hkps
        refine ⟨?_, ?_, ?_, ?_, htr⟩
        · intro l hl
          exact absurd hl (by simpa using hnomatch l)
        · intro _
          rfl
        · intro l hl
          show (match Json.getF c "sources" with
                | some (Json.arr la) => la.map jsToString
                | _ => ["No sources found"]) = l.map jsToString
          rw [hl]
        · intro hnot
          show (match Json.getF c "sources" with
                | some (Json.arr la) => la.map jsToString
                | _ => ["No sources found"]) = ["No sources found"]
          split
          · rename_i la heq2
            exact absurd heq2 (hnot la)
          · rfl

set_option maxRecDepth 10000 in
/-- Claim C2 counterexample: a candidate whose source data supplies EMPTY
keyPolicies and sources arrays produces output lists that are both empty —
no sentinel entry is substituted, so candidate sources/policies are not
always non-empty. -/
theorem empty_policy_and_source_arrays_pass_through :
    (parseAIGeneratedJson noDateParse emptyArraysReply seedElection).map
      (fun e => e.candidates.map (fun c => (c.keyPolicies, c.sources))) =
      [[([], [])]] := rfl

/-- Claim C2 witness: for a candidate object missing the two array fields,
the single-entry sentinel lists are substituted. -/
theorem candidate_list_sentinels_witness :
    emptyObjCandidate.keyPolicies =
      [{ title := "Policy", description := "No specific policies mentioned" }] ∧
    emptyObjCandidate.sources = ["No sources found"] :=
  ⟨(candidate_list_sentinels (Json.obj []) emptyObjCandidate rfl).2.1
      (fun _ hl => Option.noConfusion hl),
   (candidate_list_sentinels (Json.obj []) emptyObjCandidate rfl).2.2.2.1
      (fun _ hl => Option.noConfusion hl)⟩

theorem jsOrString_falsy (v : Option Json) (d : String)
    (h : jsTruthyOpt v = false) : jsOrString v d = d := by
  cases v with
  | none => rfl
  | some j =>
    simp only [jsTruthyOpt] at h
    simp [jsOrString, h]

/-- Claim C9 (corrected): in the exported `parseAIGeneratedJson`, a
missing or falsy candidate `fullName` defaults to the EMPTY string, not a
human-readable sentinel; `description` defaults to the explanatory
sentinel "No description found" and `currentPosition` to "Candidate". -/
theorem candidate_string_defaults (c : Json) (cand : Candidate)
    (h : mapCandidate c = Except.ok cand) :
    (jsTruthyOpt (Json.getF c "fullName") = false → cand.fullName = "") ∧
    (jsTruthyOpt (Json.getF c "description") = false →
      cand.description = "No description found") ∧
    (jsTruthyOpt (Json.getF c "currentPosition") = false →
      cand.currentPosition = "Candidate") := by
  by_cases hnull : c.isNull
  · simp only [mapCandidate, hnull, if_true] at h
    exact Except.noConfusion h
  · simp only [mapCandidate, hnull, Bool.false_eq_true, if_false] at h
    split at h
    · exact Except.noConfusion h
    · rename_i kps hkps
      cases h
      exact ⟨fun hf => jsOrString_falsy _ _ hf,
             fun hf => jsOrString_falsy _ _ hf,
             fun hf => jsOrString_falsy _ _ hf⟩

set_option maxRecDepth 10000 in
/-- Claim C9 counterexample: a candidate object with no fields at all
yields fullName = "" — the empty string, not a human-readable sentinel —
while description falls back to its explanatory sentinel. -/
theorem fullName_defaults_to_empty_string :
    (parseAIGeneratedJson noDateParse missingFieldsReply seedElection).map
      (fun e => e.candidates.map (fun c => (c.fullName, c.description))) =
      [[("", "No description found")]] := rfl

/-- Claim C9 witness: concrete defaults for an empty candidate object. -/
theorem candidate_string_defaults_witness :
    emptyObjCandidate.fullName = "" ∧
    emptyObjCandidate.description = "No description found" :=
  ⟨(candidate_string_defaults (Json.obj []) emptyObjCandidate rfl).1 rfl,
   (candidate_string_defaults (Json.obj []) emptyObjCandidate rfl).2.1 rfl⟩

theorem exceptMap_mapPosition (basicElection : BasicElection) :
    ∀ (arr : List Json), Json.null ∉ arr →
      exceptMap (mapPosition basicElection) arr =
        Except.ok (arr.map (fun e =>
          if jsTruthyOpt (Json.getF e "position_name")
          then some (keptPosition basicElection e) else none)) := by
  intro arr
  induction arr with
  | nil => intro _; rfl
  | cons e rest ih =>
    intro hmem
    have hov : Json.null ∉ rest := fun hr => hmem (List.mem_cons_of_mem e hr)
    have hne : e.isNull = false := by
      cases e
      case null => exact absurd (List.mem_cons_self _ _) hmem
      all_goals rfl
    by_cases ht : jsTruthyOpt (Json.getF e "position_name") = true
    · simp [exceptMap, mapPosition, hne, ht, ih hov]
    · simp [exceptMap, mapPosition, hne, ht, ih hov]

theorem filterMap_if_eq_filter_map {β γ : Type} (p : β → Bool) (k : β → γ) :
    ∀ l : List β,
      (l.map (fun e => if p e then some (k e) else none)).filterMap id =
        (l.filter p).map k := by
  intro l
  induction l with
  | nil => rfl
  | cons b rest ih =>
    by_cases hb : p b = true
    · simp [List.filterMap_cons, List.filter_cons, hb, ih]
    · simp [List.filterMap_cons, List.filter_cons, hb, ih]

/-- Claim C6 (corrected): for a parsed positions array without null
elements, exactly the elements with truthy `position_name` survive, in
order, and a malformed (non-null) element never aborts the batch; a NULL
element, however, throws inside the mapper and the catch collapses the
whole batch to the empty list. -/
theorem position_elements_filtered (basicElection : BasicElection)
    (raw span : String) (parsed : Json) (arr : List Json)
    (h1 : extractJsonSpan raw = some span)
    (h2 : Json.parse span = some parsed)
    (h3 : topArrayField parsed "positions_up_for_election" = some arr)
    (h4 : Json.null ∉ arr) :
    validateRawPositions raw basicElection =
      (arr.filter (fun e => jsTruthyOpt (Json.getF e "position_name"))).map
        (keptPosition basicElection) := by
  simp only [validateRawPositions, h1, h2, h3,
    exceptMap_mapPosition basicElection arr h4]
  exact filterMap_if_eq_filter_map _ _ arr

set_option maxRecDepth 10000 in
/-- Claim C6 counterexample: a positions array holding one well-formed
element and one null element produces the EMPTY output: the null element's
property access throws, the catch aborts the whole batch, and the good
sibling Mayor (which has position_name) is absent from the output. -/
theorem null_position_element_aborts_batch :
    Json.parse nullElementReply =
      some (Json.obj [("positions_up_for_election",
        Json.arr [Json.obj [("position_name", Json.str "Mayor")],
                  Json.null])]) ∧
    validateRawPositions nullElementReply seedElection = [] :=
  ⟨rfl, rfl⟩

set_option maxRecDepth 10000 in
/-- Claim C6 witness: in a null-free batch, the element missing
position_name is dropped while both good siblings are preserved. -/
theorem position_elements_filtered_witness :
    validateRawPositions goodBadBatchReply seedElection =
      ((goodBadBatchElems.filter
          (fun e => jsTruthyOpt (Json.getF e "position_name"))).map
        (keptPosition seedElection)) :=
  position_elements_filtered seedElection goodBadBatchReply
    goodBadBatchReply
    (Json.obj [("positions_up_for_election", Json.arr goodBadBatchElems)])
    goodBadBatchElems rfl rfl rfl (by simp [goodBadBatchElems])

set_option maxRecDepth 10000 in
/-- Claim C1 witness: a prose reply with no JSON object parses to the
empty election list. -/
theorem response_parsers_malformed_witness :
    parseAIGeneratedJson noDateParse proseReply seedElection = [] :=
  ((response_parsers_return_empty_on_malformed noDateParse proseReply
      seedElection).1 rfl).2
